import Mathlib

/- Formal model of src/code_analyzer.py: a static style checker that scans
Python source files line by line and through a walk of the parsed syntax
tree, collecting (line number, rule code) findings per file.  Physical lines
are modelled as lists of characters (including the trailing newline, as
produced by iterating a Python file object), files as path + lines + parsed
statement tree, and the mutable `CodeAnalyzer` object as an explicit
`AnalyzerState` value threaded through the checks. -/

namespace CodeAnalyzer

/-- A finding is a pair of 1-based line number and rule code, exactly the
tuple appended by `CodeAnalyzer.output` (src lines 64-68). -/
abbrev Finding := Nat × String

/-- The mutable state of a `CodeAnalyzer` instance: the blank-line run
counter `self.preceding_blank_lines`, `self.current_path`, and the findings
dictionary `self.result`.  The dictionary is modelled as an association list
in key-insertion order, since Python dicts preserve insertion order. -/
structure AnalyzerState where
  precedingBlankLines : Nat
  currentPath : String
  result : List (String × List Finding)

/-- The state established by `CodeAnalyzer.__init__` (src lines 45-62). -/
def initState : AnalyzerState :=
  { precedingBlankLines := 0, currentPath := "", result := [] }

/-- The fixed rule table `self.issues` (src lines 49-61). -/
def issues : String → String
  | "S001" => "Too long"
  | "S002" => "Indentation is not a multiple of four"
  | "S003" => "Unnecessary semicolon after a statement"
  | "S004" => "Less than two spaces before inline comments"
  | "S005" => "TODO found"
  | "S006" => "More than two blank lines preceding a code line"
  | "S007" => "Too many spaces after construction_name (def or class)"
  | "S008" => "Class name class_name should be written in CamelCase"
  | "S009" => "Function name function_name should be written in snake_case"
  | "S010" => "Argument name arg_name should be written in snake_case"
  | "S011" => "Variable var_name should be written in snake_case"
  | "S012" => "The default argument value is mutable"
  | _ => ""

/-- The findings recorded so far for one file path: `self.result[path]`,
with `[]` when the key is absent. -/
def findingsOf (s : AnalyzerState) (path : String) : List Finding :=
  (List.lookup path s.result).getD []

/-- Append a finding under key `k`: Python's
`self.result[k].append(f)` with `except KeyError: self.result[k] = [f]`.
An existing key keeps its position in the dict; a new key is inserted at
the end (Python dict insertion order). -/
def updateAssoc (r : List (String × List Finding)) (k : String) (f : Finding) :
    List (String × List Finding) :=
  match r with
  | [] => [(k, [f])]
  | (k', v) :: rest =>
    if k' = k then (k', v ++ [f]) :: rest else (k', v) :: updateAssoc rest k f

/-- `CodeAnalyzer.output` (src lines 64-68): record `(line_number, code)`
under the current path. -/
def output (s : AnalyzerState) (lineNumber : Nat) (code : String) : AnalyzerState :=
  { s with result := updateAssoc s.result s.currentPath (lineNumber, code) }

/- Character-level helpers mirroring the Python string operations used by
the line checks. -/

/-- `line.rstrip('\n')`: remove every trailing newline character. -/
def rstripNl (l : List Char) : List Char :=
  (l.reverse.dropWhile (fun c => c = '\n')).reverse

/-- The six ASCII whitespace characters stripped by Python's `str.rstrip()`
with no argument (the repository's sources are ASCII, so the extra Unicode
whitespace stripped by Python never occurs). -/
def isPySpace (c : Char) : Bool :=
  (c = ' ') || (c = '\t') || (c = '\n') || (c = '\r') || (c = '\x0b') || (c = '\x0c')

/-- `str.rstrip()`: remove trailing whitespace. -/
def rstripWs (l : List Char) : List Char :=
  (l.reverse.dropWhile isPySpace).reverse

/-- `line.split('#')`: split at every `#`, keeping empty parts; the result
always has at least one element, like Python's `str.split`. -/
def splitHash : List Char → List (List Char)
  | [] => [[]]
  | c :: rest =>
    if c = '#' then [] :: splitHash rest
    else
      match splitHash rest with
      | [] => [[c]]
      | p :: ps => (c :: p) :: ps

/-- Python's slice `l[-2:]`: the last two characters, or the whole list
when it has fewer than two elements. -/
def lastTwo (l : List Char) : List Char :=
  l.drop (l.length - 2)

/-- Leading spaces. -/
def dropSpaces (l : List Char) : List Char :=
  l.dropWhile (fun c => c = ' ')

/-- The counting loop of `CodeAnalyzer.ident_check` (src lines 77-81):
`for letter in line: if letter != ' ': break; ident_counter += 1`. -/
def identCounter : List Char → Nat
  | [] => 0
  | c :: rest => if c = ' ' then identCounter rest + 1 else 0

/- Boolean flags: the condition of each line check, translated from the
corresponding method of `CodeAnalyzer`.  Each check method is then the
conditional `self.output(line_number, code)` guarded by its flag. -/

/-- Condition of `len_check` (src 70-73): `len(line.rstrip('\n')) > 79`. -/
def len_flag (line : List Char) : Bool :=
  decide (79 < (rstripNl line).length)

/-- Condition of `ident_check` (src 75-83):
`ident_counter > 0 and (ident_counter % 4) != 0`. -/
def ident_flag (line : List Char) : Bool :=
  decide (0 < identCounter line ∧ identCounter line % 4 ≠ 0)

/-- Condition of `semicolon_check` (src 85-91): take the part before the
first `#`, strip trailing whitespace; flag when it is nonempty and its last
character is `;`. -/
def semicolon_flag (line : List Char) : Bool :=
  let before := rstripWs ((splitHash line).headD [])
  decide (0 < before.length) && (before.getLast? == some ';')

/-- Condition of `two_spaces_check` (src 93-99): skip when the first
character is `#`; otherwise flag when the line contains `#` (the split has
more than one part) and the two characters before the first `#`
(`line.split('#')[0][-2:]`) are not two spaces. -/
def two_spaces_flag (line : List Char) : Bool :=
  match line with
  | [] => false
  | c :: _ =>
    if c = '#' then false
    else
      let parts := splitHash line
      decide (1 < parts.length) && (lastTwo (parts.headD []) != [' ', ' '])

/-- Python's substring test `pat in s`: `pat` occurs contiguously in `s`. -/
def containsSeq (pat : List Char) : List Char → Bool
  | [] => pat.isPrefixOf []
  | c :: rest => pat.isPrefixOf (c :: rest) || containsSeq pat rest

/-- Condition of `todo_check` (src 101-109): after splitting at `#` and
dropping the part before the first `#`, some comment part contains the word
`todo` case-insensitively (the loop's `break` makes at most one finding). -/
def todo_flag (line : List Char) : Bool :=
  let parts := splitHash line
  decide (1 < parts.length) &&
    parts.tail.any (fun part => containsSeq ['t', 'o', 'd', 'o'] (part.map Char.toLower))

/- The regular expressions of src lines 122-140, matched with `re.match`
(anchored at the start of the line, not required to reach its end).  Each
pattern is determinised below; a comment at each step records why greedy
matching loses no matches. -/

/-- `_?_?`: at most two underscores, consumed greedily; greediness is safe
because the pattern continues with `def`, which does not start with `_`. -/
def dropUnderscores2 : List Char → List Char
  | '_' :: '_' :: rest => rest
  | '_' :: rest => rest
  | l => l

/-- Match `kw` followed by at least two spaces (`kw {2,}` applied to a
trailing-space atom) at the head of `l`; the rest of the line is
unconstrained because `re.match` only anchors the start. -/
def kwTwoSpaces (kw : List Char) (l : List Char) : Bool :=
  kw.isPrefixOf l && (((l.drop kw.length).take 2) == [' ', ' '])

/-- ` *_?_?def {2,}` after the optional leading character: consuming the
spaces greedily is safe because the pattern continues with `_` or `d`,
neither of which is a space. -/
def matchDefCore (l : List Char) : Bool :=
  kwTwoSpaces ['d', 'e', 'f'] (dropUnderscores2 (dropSpaces l))

/-- ` *class {2,}` after the optional leading character. -/
def matchClassCore (l : List Char) : Bool :=
  kwTwoSpaces ['c', 'l', 'a', 's', 's'] (dropSpaces l)

/-- `[^#]?` at the start of a template: either consume nothing, or consume
one character that is not `#` (a character class also matches a newline). -/
def optNonHash (core : List Char → Bool) (l : List Char) : Bool :=
  core l ||
    (match l with
     | [] => false
     | c :: rest => (c != '#') && core rest)

/-- Condition of `def_spaces_check` (src 122-127):
`re.match(r'[^#]? *_?_?def {2,}', line) or re.match(r'[^#]? *class {2,}', line)`. -/
def def_spaces_flag (line : List Char) : Bool :=
  optNonHash matchDefCore line || optNonHash matchClassCore line

/-- The character class `[a-z]`. -/
def isLowerAlpha (c : Char) : Bool :=
  ('a' ≤ c) && (c ≤ 'z')

/-- The character class `[A-Z]`. -/
def isUpperAlpha (c : Char) : Bool :=
  ('A' ≤ c) && (c ≤ 'Z')

/-- The character class `[a-zA-z]` exactly as written in the source: the
second range is `A`-`z`, which also covers `[`, `\`, `]`, `^`, `_` and
the backquote. -/
def isAzQuirk (c : Char) : Bool :=
  (('a' ≤ c) && (c ≤ 'z')) || (('A' ≤ c) && (c ≤ 'z'))

/-- ` *class +` at the start of the line: leading spaces, the keyword, then
at least one space; returns what follows the run of spaces after the
keyword.  Greediness is safe: the patterns continue with `[a-z]` or
`[a-zA-z]`, and a space is in neither class. -/
def afterClassKw (l : List Char) : Option (List Char) :=
  let l1 := dropSpaces l
  if ['c', 'l', 'a', 's', 's'].isPrefixOf l1 then
    match l1.drop 5 with
    | ' ' :: rest => some (dropSpaces rest)
    | _ => none
  else none

/-- `re.match(r' *class +[a-z]', line)`. -/
def class_lower_flag (line : List Char) : Bool :=
  match afterClassKw line with
  | some rest =>
    match rest with
    | c :: _ => isLowerAlpha c
    | [] => false
  | none => false

/-- `re.match(r' *class +[a-zA-z]+_', line)`.  With backtracking the tail
`[a-zA-z]+_` matches iff some position `k ≥ 1` has all characters before it
in the class and `_` at it; since `_` itself is in the class, that holds
iff the maximal class-prefix contains `_` at some position `≥ 1`. -/
def class_underscore_flag (line : List Char) : Bool :=
  match afterClassKw line with
  | some rest => ((rest.takeWhile isAzQuirk).drop 1).contains '_'
  | none => false

/-- Condition of `class_naming_check` (src 129-134). -/
def class_naming_flag (line : List Char) : Bool :=
  class_lower_flag line || class_underscore_flag line

/-- The character class `[a-z0-9_]`. -/
def isSnakeChar (c : Char) : Bool :=
  (('a' ≤ c) && (c ≤ 'z')) || (('0' ≤ c) && (c ≤ '9')) || (c == '_')

/-- Condition of `function_naming_check` (src 136-140):
`re.match(r' *def +[a-z0-9_]*[A-Z]', line)`.  Greedy consumption of
`[a-z0-9_]*` is safe because the classes `[a-z0-9_]` and `[A-Z]` are
disjoint. -/
def function_naming_flag (line : List Char) : Bool :=
  let l1 := dropSpaces line
  if ['d', 'e', 'f'].isPrefixOf l1 then
    match l1.drop 3 with
    | ' ' :: rest =>
      match (dropSpaces rest).dropWhile isSnakeChar with
      | c :: _ => isUpperAlpha c
      | [] => false
    | _ => false
  else false

/- The line-check methods.  Each records its finding through `output`. -/

/-- `CodeAnalyzer.len_check` (src 70-73). -/
def len_check (s : AnalyzerState) (line : List Char) (lineNumber : Nat) : AnalyzerState :=
  if len_flag line then output s lineNumber "S001" else s

/-- `CodeAnalyzer.ident_check` (src 75-83). -/
def ident_check (s : AnalyzerState) (line : List Char) (lineNumber : Nat) : AnalyzerState :=
  if ident_flag line then output s lineNumber "S002" else s

/-- `CodeAnalyzer.semicolon_check` (src 85-91). -/
def semicolon_check (s : AnalyzerState) (line : List Char) (lineNumber : Nat) : AnalyzerState :=
  if semicolon_flag line then output s lineNumber "S003" else s

/-- `CodeAnalyzer.two_spaces_check` (src 93-99).  On an empty line the
Python code would raise `IndexError` at `line[0]`; iterating a file object
never yields an empty string, so the `[]` case is unreachable from
`check_file` and is modelled as a no-op. -/
def two_spaces_check (s : AnalyzerState) (line : List Char) (lineNumber : Nat) : AnalyzerState :=
  if two_spaces_flag line then output s lineNumber "S004" else s

/-- `CodeAnalyzer.todo_check` (src 101-109). -/
def todo_check (s : AnalyzerState) (line : List Char) (lineNumber : Nat) : AnalyzerState :=
  if todo_flag line then output s lineNumber "S005" else s

/-- `CodeAnalyzer.blank_lines_check` (src 111-120): a blank line increments
the counter; a non-blank line flags S006 when the counter exceeds 2, and
resets the counter to 0 when it was positive. -/
def blank_lines_check (s : AnalyzerState) (line : List Char) (lineNumber : Nat) : AnalyzerState :=
  if rstripNl line = [] then
    { s with precedingBlankLines := s.precedingBlankLines + 1 }
  else if 2 < s.precedingBlankLines then
    output { s with precedingBlankLines := 0 } lineNumber "S006"
  else if 0 < s.precedingBlankLines ∧ s.precedingBlankLines ≤ 2 then
    { s with precedingBlankLines := 0 }
  else
    s

/-- `CodeAnalyzer.def_spaces_check` (src 122-127). -/
def def_spaces_check (s : AnalyzerState) (line : List Char) (lineNumber : Nat) : AnalyzerState :=
  if def_spaces_flag line then output s lineNumber "S007" else s

/-- `CodeAnalyzer.class_naming_check` (src 129-134). -/
def class_naming_check (s : AnalyzerState) (line : List Char) (lineNumber : Nat) : AnalyzerState :=
  if class_naming_flag line then output s lineNumber "S008" else s

/-- `CodeAnalyzer.function_naming_check` (src 136-140). -/
def function_naming_check (s : AnalyzerState) (line : List Char) (lineNumber : Nat) : AnalyzerState :=
  if function_naming_flag line then output s lineNumber "S009" else s

/- The syntax tree.  `ast.parse` produces a module whose statements are
walked by `ast.walk`; the node kinds the checker dispatches on are
`FunctionDef` (with argument names and positional default expressions) and
`Assign` (with a list of targets).  Compound statements such as `if`,
`while`, `for` or `with`, whose bodies `ast.walk` also reaches, are covered
by the generic `otherStmt`. -/

/-- The expression kinds that can appear as a default value; the source
only inspects `type(def_arg).__name__`. -/
inductive PyExpr where
  | constant
  | listLit
  | dictLit
  | setLit
  | nameExpr (id : String)
  | callExpr

/-- `type(e).__name__` for the modelled expression kinds. -/
def PyExpr.typeName : PyExpr → String
  | .constant => "Constant"
  | .listLit => "List"
  | .dictLit => "Dict"
  | .setLit => "Set"
  | .nameExpr _ => "Name"
  | .callExpr => "Call"

/-- Assignment targets.  Only `ast.Name` nodes carry an `id` attribute;
attribute access, subscripts and tuple/list unpacking targets do not. -/
inductive PyTarget where
  | nameT (id : String)
  | attributeT
  | subscriptT
  | tupleT (elts : List PyTarget)

/-- `target.__dict__['id']` with its `KeyError` handler (src 163-166):
`some id` for a `Name` target, `none` (pass) otherwise. -/
def PyTarget.idAttr : PyTarget → Option String
  | .nameT id => some id
  | _ => none

/-- Statements, as far as the walker distinguishes them. -/
inductive PyStmt where
  | functionDef (lineno : Nat) (args : List String) (defaults : List PyExpr)
      (body : List PyStmt)
  | classDef (lineno : Nat) (body : List PyStmt)
  | assign (lineno : Nat) (targets : List PyTarget)
  | otherStmt (body : List PyStmt)

/-- The child statements a node contributes to the walk. -/
def PyStmt.children : PyStmt → List PyStmt
  | .functionDef _ _ _ body => body
  | .classDef _ body => body
  | .assign _ _ => []
  | .otherStmt body => body

mutual

/-- The number of statement nodes in a statement's subtree. -/
def PyStmt.size : PyStmt → Nat
  | .functionDef _ _ _ body => 1 + sizeListPy body
  | .classDef _ body => 1 + sizeListPy body
  | .assign _ _ => 1
  | .otherStmt body => 1 + sizeListPy body

/-- The number of statement nodes in a forest. -/
def sizeListPy : List PyStmt → Nat
  | [] => 0
  | s :: rest => PyStmt.size s + sizeListPy rest

end

/-- Breadth-first traversal with explicit fuel; `ast.walk` maintains the
same queue (pop front, push the node's children at the back). -/
def walkAux : Nat → List PyStmt → List PyStmt
  | _, [] => []
  | 0, _ :: _ => []
  | fuel + 1, n :: rest => n :: walkAux fuel (rest ++ n.children)

/-- `ast.walk` over the statements of a module, in breadth-first order.
`sizeListPy q` is the exact number of statement nodes in the forest `q`,
and every `walkAux` step emits one node while spending one unit of fuel
and replacing the node by its children in the queue, so the fuel is exactly
enough to emit every node.  The `ast.Module` node itself and the
expression nodes the real walk also yields are omitted: they are neither
`FunctionDef` nor `Assign`, so the dispatch in `arguments_check` ignores
them. -/
def walk (q : List PyStmt) : List PyStmt :=
  walkAux (sizeListPy q) q

/-- `re.match(r'.*[A-Z]', name)` (the `template` of src line 143): `.`
matches anything but a newline, so the match succeeds iff the maximal
newline-free prefix contains an uppercase letter (an uppercase letter is
itself not a newline). -/
def reMatchAnyUpper (l : List Char) : Bool :=
  (l.takeWhile (fun c => c != '\n')).any isUpperAlpha

/-- The body of the `ast.walk` loop of `CodeAnalyzer.arguments_check`
(src 146-169): on a `FunctionDef`, check every argument name for S010 and
only the first positional default for S012 (the `mutable_found` latch is
set on the first iteration); on an `Assign`, check each target that has an
`id` for S011; ignore every other node kind. -/
def arguments_check_node (s : AnalyzerState) (node : PyStmt) : AnalyzerState :=
  match node with
  | .functionDef lineno args defaults _body =>
    let s1 := args.foldl
      (fun st a => if reMatchAnyUpper a.data then output st lineno "S010" else st) s
    (defaults.foldl
      (fun (acc : AnalyzerState × Bool) d =>
        if acc.2 = false then
          ((if d.typeName ≠ "Constant" then output acc.1 lineno "S012" else acc.1), true)
        else acc)
      (s1, false)).1
  | .assign lineno targets =>
    targets.foldl
      (fun st t =>
        match t.idAttr with
        | none => st
        | some id => if reMatchAnyUpper id.data then output st lineno "S011" else st)
      s
  | _ => s

/-- `CodeAnalyzer.arguments_check` (src 142-169): parse the file and fold
the node dispatch over `ast.walk` of the tree. -/
def arguments_check (s : AnalyzerState) (tree : List PyStmt) : AnalyzerState :=
  (walk tree).foldl arguments_check_node s

/-- One iteration of the line loop of `CodeAnalyzer.check_file`
(src 174-184): the nine line checks applied in their fixed source order. -/
def checkLine (s : AnalyzerState) (line : List Char) (n : Nat) : AnalyzerState :=
  function_naming_check
    (class_naming_check
      (def_spaces_check
        (blank_lines_check
          (todo_check
            (two_spaces_check
              (semicolon_check
                (ident_check
                  (len_check s line n)
                  line n)
                line n)
              line n)
            line n)
          line n)
        line n)
      line n)
    line n

/-- The line loop of `CodeAnalyzer.check_file` with `line_number` starting
at `n`. -/
def scanLines (s : AnalyzerState) (lines : List (List Char)) (n : Nat) : AnalyzerState :=
  match lines with
  | [] => s
  | l :: rest => scanLines (checkLine s l n) rest (n + 1)

/-- `CodeAnalyzer.check_file` (src 171-186): scan the lines starting at
line number 1, then run the tree checks.  Note that the blank-line counter
is NOT reset here: it keeps whatever value the previous file left. -/
def check_file (s : AnalyzerState) (lines : List (List Char)) (tree : List PyStmt) :
    AnalyzerState :=
  arguments_check (scanLines s lines 1) tree

/-- A source file as `check_path` sees it: its path, its physical lines and
its parsed tree. -/
structure PyFile where
  path : String
  lines : List (List Char)
  tree : List PyStmt

/-- `CodeAnalyzer.check_path` (src 188-198): process the files in
discovery order, setting `self.current_path` before each `check_file`. -/
def check_path (s : AnalyzerState) (files : List PyFile) : AnalyzerState :=
  files.foldl (fun st f => check_file { st with currentPath := f.path } f.lines f.tree) s

/-- One printed line of `CodeAnalyzer.print_result` (src 204):
`f'{file_name}: Line {line[0]}: {line[1]} {self.issues[line[1]]}'`. -/
def formatFinding (fileName : String) (f : Finding) : String :=
  fileName ++ ": Line " ++ toString f.1 ++ ": " ++ f.2 ++ " " ++ issues f.2

/-- `CodeAnalyzer.print_result` (src 200-204): `sorted(self.result)` sorts
the file paths (Python string comparison is code-point lexicographic, as is
`String` order here); within each file the findings are printed in stored
order. -/
def print_result (s : AnalyzerState) : List String :=
  (List.insertionSort (fun a b => a ≤ b) (s.result.map Prod.fst)).flatMap
    (fun fileName => (findingsOf s fileName).map (formatFinding fileName))

/- Specification-side finding lists, used to state what the checks append. -/

/-- The first five line checks of a line, as (flag, code) pairs in source
order. -/
def frontChecks (line : List Char) : List (Bool × String) :=
  [(len_flag line, "S001"), (ident_flag line, "S002"), (semicolon_flag line, "S003"),
   (two_spaces_flag line, "S004"), (todo_flag line, "S005")]

/-- The last three line checks of a line, in source order. -/
def backChecks (line : List Char) : List (Bool × String) :=
  [(def_spaces_flag line, "S007"), (class_naming_flag line, "S008"),
   (function_naming_flag line, "S009")]

/-- Apply a list of guarded outputs at line number `n`. -/
def applyChecks (s : AnalyzerState) (n : Nat) : List (Bool × String) → AnalyzerState
  | [] => s
  | c :: rest => applyChecks (if c.1 then output s n c.2 else s) n rest

/-- The blank-line counter after one line: incremented on a blank line,
reset to zero on a non-blank line. -/
def nextBlanks (line : List Char) (b : Nat) : Nat :=
  if rstripNl line = [] then b + 1 else 0

/-- The findings one line contributes, in the fixed check order
S001..S009, given the blank-line counter `blanks` in force when the line
is scanned. -/
def lineFindingList (line : List Char) (n : Nat) (blanks : Nat) : List Finding :=
  (frontChecks line).flatMap (fun c => if c.1 then [(n, c.2)] else [])
    ++ (if rstripNl line ≠ [] ∧ 2 < blanks then [(n, "S006")] else [])
    ++ (backChecks line).flatMap (fun c => if c.1 then [(n, c.2)] else [])

/-- The findings of a whole line scan starting at line number `n` with
blank counter `blanks`, in line order. -/
def scanFindingList : List (List Char) → Nat → Nat → List Finding
  | [], _, _ => []
  | l :: rest, n, blanks =>
    lineFindingList l n blanks ++ scanFindingList rest (n + 1) (nextBlanks l blanks)

/-- The blank-line counter left by a line scan. -/
def finalBlanks : List (List Char) → Nat → Nat
  | [], b => b
  | l :: rest, b => finalBlanks rest (nextBlanks l b)

/-- The findings one walked node contributes, in source order: S010 for
each uppercase-containing argument name, then S012 for the first default
when it is not a `Constant`; S011 for each `Name` target containing an
uppercase letter. -/
def nodeFindingList : PyStmt → List Finding
  | .functionDef lineno args defaults _ =>
    (args.filterMap fun a => if reMatchAnyUpper a.data then some (lineno, "S010") else none)
      ++ (match defaults with
          | [] => []
          | d :: _ => if d.typeName ≠ "Constant" then [(lineno, "S012")] else [])
  | .assign lineno targets =>
    targets.filterMap fun t =>
      match t.idAttr with
      | some id => if reMatchAnyUpper id.data then some (lineno, "S011") else none
      | none => none
  | _ => []

/-- The findings of the tree pass, in walk order. -/
def treeFindingList (tree : List PyStmt) : List Finding :=
  (walk tree).flatMap nodeFindingList

/- Basic lemmas about the findings store. -/

theorem output_currentPath (s : AnalyzerState) (n : Nat) (c : String) :
    (output s n c).currentPath = s.currentPath := rfl

theorem output_blanks (s : AnalyzerState) (n : Nat) (c : String) :
    (output s n c).precedingBlankLines = s.precedingBlankLines := rfl

theorem lookup_updateAssoc_self (k : String) (f : Finding) :
    ∀ r : List (String × List Finding),
      List.lookup k (updateAssoc r k f) = some ((List.lookup k r).getD [] ++ [f]) := by
  intro r
  induction r with
  | nil => simp [updateAssoc, List.lookup]
  | cons e rest ih =>
    obtain ⟨k', v⟩ := e
    by_cases h : k' = k
    · subst h
      simp [updateAssoc, List.lookup]
    · have hne : (k == k') = false := by
        simp [Ne.symm h]
      simp [updateAssoc, h, List.lookup, hne, ih]

theorem lookup_updateAssoc_ne (k p : String) (f : Finding) (h : p ≠ k) :
    ∀ r : List (String × List Finding),
      List.lookup p (updateAssoc r k f) = List.lookup p r := by
  intro r
  have hbeq : (p == k) = false := by simp [h]
  induction r with
  | nil => simp [updateAssoc, List.lookup, hbeq]
  | cons e rest ih =>
    obtain ⟨k', v⟩ := e
    by_cases h' : k' = k
    · subst h'
      simp [updateAssoc, List.lookup, hbeq, ih]
    · simp [updateAssoc, h', List.lookup, ih]

theorem findingsOf_output_self (s : AnalyzerState) (n : Nat) (c : String) :
    findingsOf (output s n c) s.currentPath = findingsOf s s.currentPath ++ [(n, c)] := by
  simp [findingsOf, output, lookup_updateAssoc_self]

theorem findingsOf_output_ne (s : AnalyzerState) (n : Nat) (c : String) (p : String)
    (h : p ≠ s.currentPath) :
    findingsOf (output s n c) p = findingsOf s p := by
  simp [findingsOf, output, lookup_updateAssoc_ne _ _ _ h]

theorem ite_output_spec (s : AnalyzerState) (n : Nat) (k : String) (c : Prop)
    [Decidable c] :
    ((if c then output s n k else s).currentPath = s.currentPath)
    ∧ ((if c then output s n k else s).precedingBlankLines = s.precedingBlankLines)
    ∧ (findingsOf (if c then output s n k else s) s.currentPath
        = findingsOf s s.currentPath ++ (if c then [(n, k)] else []))
    ∧ (∀ p, p ≠ s.currentPath →
        findingsOf (if c then output s n k else s) p = findingsOf s p) := by
  by_cases h : c
  · refine ⟨?_, ?_, ?_, ?_⟩
    · simp [h, output_currentPath]
    · simp [h, output_blanks]
    · simp [h, findingsOf_output_self]
    · intro p hp
      simp [h, findingsOf_output_ne _ _ _ _ hp]
  · simp [h]

theorem applyChecks_spec (n : Nat) (cs : List (Bool × String)) :
    ∀ s : AnalyzerState,
      ((applyChecks s n cs).currentPath = s.currentPath)
      ∧ ((applyChecks s n cs).precedingBlankLines = s.precedingBlankLines)
      ∧ (findingsOf (applyChecks s n cs) s.currentPath
          = findingsOf s s.currentPath
            ++ cs.flatMap (fun c => if c.1 then [(n, c.2)] else []))
      ∧ (∀ p, p ≠ s.currentPath →
          findingsOf (applyChecks s n cs) p = findingsOf s p) := by
  induction cs with
  | nil => intro s; simp [applyChecks]
  | cons c rest ih =>
    intro s
    obtain ⟨h1, h2, h3, h4⟩ := ite_output_spec s n c.2 c.1
    obtain ⟨g1, g2, g3, g4⟩ := ih (if c.1 then output s n c.2 else s)
    have hstep : applyChecks s n (c :: rest)
        = applyChecks (if c.1 then output s n c.2 else s) n rest := rfl
    refine ⟨?_, ?_, ?_, ?_⟩
    · rw [hstep, g1, h1]
    · rw [hstep, g2, h2]
    · rw [hstep]
      rw [h1] at g3
      rw [g3, h3, List.flatMap_cons, List.append_assoc]
    · intro p hp
      rw [hstep]
      rw [h1] at g4
      rw [g4 p hp, h4 p hp]

theorem blank_lines_check_spec (s : AnalyzerState) (line : List Char) (n : Nat) :
    ((blank_lines_check s line n).currentPath = s.currentPath)
    ∧ ((blank_lines_check s line n).precedingBlankLines
        = nextBlanks line s.precedingBlankLines)
    ∧ (findingsOf (blank_lines_check s line n) s.currentPath
        = findingsOf s s.currentPath
          ++ (if rstripNl line ≠ [] ∧ 2 < s.precedingBlankLines then [(n, "S006")] else []))
    ∧ (∀ p, p ≠ s.currentPath →
        findingsOf (blank_lines_check s line n) p = findingsOf s p) := by
  by_cases hb : rstripNl line = []
  · refine ⟨?_, ?_, ?_, ?_⟩ <;>
      simp [blank_lines_check, nextBlanks, hb, findingsOf]
  · by_cases h2 : 2 < s.precedingBlankLines
    · have heq : blank_lines_check s line n
          = output { s with precedingBlankLines := 0 } n "S006" := by
        simp [blank_lines_check, hb, h2]
      refine ⟨?_, ?_, ?_, ?_⟩
      · rw [heq]; rfl
      · rw [heq]; simp [nextBlanks, hb, output_blanks]
      · rw [heq]
        have := findingsOf_output_self { s with precedingBlankLines := 0 } n "S006"
        simpa [hb, h2] using this
      · intro p hp
        rw [heq]
        exact findingsOf_output_ne { s with precedingBlankLines := 0 } n "S006" p hp
    · by_cases h3 : 0 < s.precedingBlankLines ∧ s.precedingBlankLines ≤ 2
      · have heq : blank_lines_check s line n = { s with precedingBlankLines := 0 } := by
          simp [blank_lines_check, hb, h2, h3]
        refine ⟨?_, ?_, ?_, ?_⟩ <;> simp [heq, nextBlanks, hb, h2, findingsOf]
      · have heq : blank_lines_check s line n = s := by
          simp [blank_lines_check, hb, h2, h3]
        have hz : s.precedingBlankLines = 0 := by omega
        refine ⟨?_, ?_, ?_, ?_⟩ <;> simp [heq, nextBlanks, hb, h2, hz]

theorem checkLine_eq (s : AnalyzerState) (line : List Char) (n : Nat) :
    checkLine s line n
      = applyChecks (blank_lines_check (applyChecks s n (frontChecks line)) line n) n
          (backChecks line) := rfl

theorem checkLine_spec (s : AnalyzerState) (line : List Char) (n : Nat) :
    ((checkLine s line n).currentPath = s.currentPath)
    ∧ ((checkLine s line n).precedingBlankLines
        = nextBlanks line s.precedingBlankLines)
    ∧ (findingsOf (checkLine s line n) s.currentPath
        = findingsOf s s.currentPath ++ lineFindingList line n s.precedingBlankLines)
    ∧ (∀ p, p ≠ s.currentPath →
        findingsOf (checkLine s line n) p = findingsOf s p) := by
  obtain ⟨a1, a2, a3, a4⟩ := applyChecks_spec n (frontChecks line) s
  obtain ⟨b1, b2, b3, b4⟩ :=
    blank_lines_check_spec (applyChecks s n (frontChecks line)) line n
  obtain ⟨c1, c2, c3, c4⟩ :=
    applyChecks_spec n (backChecks line)
      (blank_lines_check (applyChecks s n (frontChecks line)) line n)
  rw [a1] at b1 b3 b4
  rw [a2] at b2 b3
  rw [b1] at c1 c3 c4
  rw [b2] at c2
  refine ⟨?_, ?_, ?_, ?_⟩
  · rw [checkLine_eq, c1]
  · rw [checkLine_eq, c2]
  · rw [checkLine_eq, c3, b3, a3, lineFindingList]
    simp [List.append_assoc]
  · intro p hp
    rw [checkLine_eq, c4 p hp, b4 p hp, a4 p hp]

theorem scanLines_spec (lines : List (List Char)) :
    ∀ (s : AnalyzerState) (n : Nat),
      ((scanLines s lines n).currentPath = s.currentPath)
      ∧ ((scanLines s lines n).precedingBlankLines
          = finalBlanks lines s.precedingBlankLines)
      ∧ (findingsOf (scanLines s lines n) s.currentPath
          = findingsOf s s.currentPath
            ++ scanFindingList lines n s.precedingBlankLines)
      ∧ (∀ p, p ≠ s.currentPath →
          findingsOf (scanLines s lines n) p = findingsOf s p) := by
  induction lines with
  | nil =>
    intro s n
    simp [scanLines, finalBlanks, scanFindingList]
  | cons l rest ih =>
    intro s n
    obtain ⟨h1, h2, h3, h4⟩ := checkLine_spec s l n
    obtain ⟨g1, g2, g3, g4⟩ := ih (checkLine s l n) (n + 1)
    rw [h1] at g1 g3 g4
    rw [h2] at g2 g3
    have hstep : scanLines s (l :: rest) n = scanLines (checkLine s l n) rest (n + 1) := rfl
    refine ⟨?_, ?_, ?_, ?_⟩
    · rw [hstep, g1]
    · rw [hstep, g2, finalBlanks]
    · rw [hstep, g3, h3, scanFindingList, List.append_assoc]
    · intro p hp
      rw [hstep, g4 p hp, h4 p hp]

theorem foldl_ite_output_spec {α : Type} (g : α → Bool) (ln : Nat) (k : String)
    (xs : List α) :
    ∀ s : AnalyzerState,
      ((xs.foldl (fun st a => if g a then output st ln k else st) s).currentPath
        = s.currentPath)
      ∧ ((xs.foldl (fun st a => if g a then output st ln k else st) s).precedingBlankLines
          = s.precedingBlankLines)
      ∧ (findingsOf (xs.foldl (fun st a => if g a then output st ln k else st) s)
            s.currentPath
          = findingsOf s s.currentPath
            ++ xs.filterMap (fun a => if g a then some (ln, k) else none))
      ∧ (∀ p, p ≠ s.currentPath →
          findingsOf (xs.foldl (fun st a => if g a then output st ln k else st) s) p
            = findingsOf s p) := by
  induction xs with
  | nil => intro s; simp
  | cons a rest ih =>
    intro s
    obtain ⟨h1, h2, h3, h4⟩ := ite_output_spec s ln k (g a = true)
    obtain ⟨g1, g2, g3, g4⟩ := ih (if g a then output s ln k else s)
    have hstep : (a :: rest).foldl (fun st a => if g a then output st ln k else st) s
        = rest.foldl (fun st a => if g a then output st ln k else st)
            (if g a then output s ln k else s) := rfl
    rw [h1] at g1 g3 g4
    rw [h2] at g2
    refine ⟨?_, ?_, ?_, ?_⟩
    · rw [hstep, g1]
    · rw [hstep, g2]
    · rw [hstep, g3, h3, List.filterMap_cons]
      by_cases hg : g a = true <;> simp [hg, List.append_assoc]
    · intro p hp
      rw [hstep, g4 p hp, h4 p hp]

theorem defaults_foldl_latch (ln : Nat) (ds : List PyExpr) :
    ∀ st : AnalyzerState,
      ds.foldl
          (fun (acc : AnalyzerState × Bool) d =>
            if acc.2 = false then
              ((if d.typeName ≠ "Constant" then output acc.1 ln "S012" else acc.1), true)
            else acc)
          (st, true)
        = (st, true) := by
  induction ds with
  | nil => intro st; rfl
  | cons d rest ih => intro st; simpa using ih st

theorem arguments_check_node_spec (s : AnalyzerState) (node : PyStmt) :
    ((arguments_check_node s node).currentPath = s.currentPath)
    ∧ ((arguments_check_node s node).precedingBlankLines = s.precedingBlankLines)
    ∧ (findingsOf (arguments_check_node s node) s.currentPath
        = findingsOf s s.currentPath ++ nodeFindingList node)
    ∧ (∀ p, p ≠ s.currentPath →
        findingsOf (arguments_check_node s node) p = findingsOf s p) := by
  cases node with
  | functionDef ln args defaults body =>
    obtain ⟨a1, a2, a3, a4⟩ :=
      foldl_ite_output_spec (fun a => reMatchAnyUpper a.data) ln "S010" args s
    cases defaults with
    | nil =>
      refine ⟨?_, ?_, ?_, ?_⟩
      · simpa [arguments_check_node, nodeFindingList] using a1
      · simpa [arguments_check_node, nodeFindingList] using a2
      · simpa [arguments_check_node, nodeFindingList] using a3
      · intro p hp
        simpa [arguments_check_node, nodeFindingList] using a4 p hp
    | cons d ds =>
      have hred : arguments_check_node s (PyStmt.functionDef ln args (d :: ds) body)
          = (if d.typeName ≠ "Constant" then
              output (args.foldl
                (fun st a => if reMatchAnyUpper a.data then output st ln "S010" else st) s)
                ln "S012"
            else (args.foldl
                (fun st a => if reMatchAnyUpper a.data then output st ln "S010" else st) s)) := by
        show (List.foldl _ ((args.foldl
            (fun st a => if reMatchAnyUpper a.data then output st ln "S010" else st) s),
            false) (d :: ds)).1 = _
        rw [List.foldl_cons]
        simp only [show (false = false) = True by simp, if_true]
        rw [defaults_foldl_latch]
      obtain ⟨b1, b2, b3, b4⟩ :=
        ite_output_spec (args.foldl
          (fun st a => if reMatchAnyUpper a.data then output st ln "S010" else st) s)
          ln "S012" (d.typeName ≠ "Constant")
      rw [a1] at b1 b3 b4
      rw [a2] at b2
      refine ⟨?_, ?_, ?_, ?_⟩
      · rw [hred, b1]
      · rw [hred, b2]
      · rw [hred, b3, a3, nodeFindingList, List.append_assoc]
      · intro p hp
        rw [hred, b4 p hp, a4 p hp]
  | assign ln targets =>
    have hfun :
        (fun (st : AnalyzerState) (t : PyTarget) =>
          match t.idAttr with
          | none => st
          | some id => if reMatchAnyUpper id.data then output st ln "S011" else st)
        = (fun (st : AnalyzerState) (t : PyTarget) =>
            if (match t.idAttr with
                | some id => reMatchAnyUpper id.data
                | none => false) then output st ln "S011" else st) := by
      funext st t
      cases h : t.idAttr <;> simp [h]
    have hopt :
        (fun (t : PyTarget) =>
          match t.idAttr with
          | some id => if reMatchAnyUpper id.data then some ((ln, "S011") : Finding) else none
          | none => none)
        = (fun (t : PyTarget) =>
            if (match t.idAttr with
                | some id => reMatchAnyUpper id.data
                | none => false) then some ((ln, "S011") : Finding) else none) := by
      funext t
      cases h : t.idAttr <;> simp [h]
    obtain ⟨a1, a2, a3, a4⟩ :=
      foldl_ite_output_spec
        (fun t => match PyTarget.idAttr t with
                  | some id => reMatchAnyUpper id.data
                  | none => false)
        ln "S011" targets s
    have hred : arguments_check_node s (PyStmt.assign ln targets)
        = targets.foldl
            (fun st t =>
              if (match t.idAttr with
                  | some id => reMatchAnyUpper id.data
                  | none => false) then output st ln "S011" else st) s := by
      show targets.foldl _ s = _
      rw [hfun]
    refine ⟨?_, ?_, ?_, ?_⟩
    · rw [hred]; exact a1
    · rw [hred]; exact a2
    · rw [hred, a3, nodeFindingList, hopt]
    · intro p hp
      rw [hred]
      exact a4 p hp
  | classDef ln body => exact ⟨rfl, rfl, by simp [arguments_check_node, nodeFindingList], fun p hp => rfl⟩
  | otherStmt body => exact ⟨rfl, rfl, by simp [arguments_check_node, nodeFindingList], fun p hp => rfl⟩

theorem foldl_nodes_spec (ns : List PyStmt) :
    ∀ s : AnalyzerState,
      ((ns.foldl arguments_check_node s).currentPath = s.currentPath)
      ∧ ((ns.foldl arguments_check_node s).precedingBlankLines = s.precedingBlankLines)
      ∧ (findingsOf (ns.foldl arguments_check_node s) s.currentPath
          = findingsOf s s.currentPath ++ ns.flatMap nodeFindingList)
      ∧ (∀ p, p ≠ s.currentPath →
          findingsOf (ns.foldl arguments_check_node s) p = findingsOf s p) := by
  induction ns with
  | nil => intro s; simp
  | cons node rest ih =>
    intro s
    obtain ⟨h1, h2, h3, h4⟩ := arguments_check_node_spec s node
    obtain ⟨g1, g2, g3, g4⟩ := ih (arguments_check_node s node)
    rw [h1] at g1 g3 g4
    rw [h2] at g2
    refine ⟨?_, ?_, ?_, ?_⟩
    · rw [List.foldl_cons, g1]
    · rw [List.foldl_cons, g2]
    · rw [List.foldl_cons, g3, h3, List.flatMap_cons, List.append_assoc]
    · intro p hp
      rw [List.foldl_cons, g4 p hp, h4 p hp]

theorem arguments_check_spec (s : AnalyzerState) (tree : List PyStmt) :
    ((arguments_check s tree).currentPath = s.currentPath)
    ∧ ((arguments_check s tree).precedingBlankLines = s.precedingBlankLines)
    ∧ (findingsOf (arguments_check s tree) s.currentPath
        = findingsOf s s.currentPath ++ treeFindingList tree)
    ∧ (∀ p, p ≠ s.currentPath →
        findingsOf (arguments_check s tree) p = findingsOf s p) :=
  foldl_nodes_spec (walk tree) s

theorem check_file_spec (s : AnalyzerState) (lines : List (List Char))
    (tree : List PyStmt) :
    ((check_file s lines tree).currentPath = s.currentPath)
    ∧ ((check_file s lines tree).precedingBlankLines
        = finalBlanks lines s.precedingBlankLines)
    ∧ (findingsOf (check_file s lines tree) s.currentPath
        = findingsOf s s.currentPath
          ++ scanFindingList lines 1 s.precedingBlankLines
          ++ treeFindingList tree)
    ∧ (∀ p, p ≠ s.currentPath →
        findingsOf (check_file s lines tree) p = findingsOf s p) := by
  obtain ⟨a1, a2, a3, a4⟩ := scanLines_spec lines s 1
  obtain ⟨b1, b2, b3, b4⟩ := arguments_check_spec (scanLines s lines 1) tree
  rw [a1] at b1 b3 b4
  rw [a2] at b2
  refine ⟨?_, ?_, ?_, ?_⟩
  · rw [check_file, b1]
  · rw [check_file, b2]
  · rw [check_file, b3, a3]
  · intro p hp
    rw [check_file, b4 p hp, a4 p hp]

/- Bridging lemmas between the implementation helpers and the wording of
the specification. -/

theorem identCounter_eq_takeWhile (line : List Char) :
    identCounter line = (line.takeWhile (fun c => c = ' ')).length := by
  induction line with
  | nil => simp [identCounter]
  | cons c rest ih =>
    by_cases h : c = ' '
    · simp [identCounter, h, List.takeWhile_cons, ih]
    · simp [identCounter, h, List.takeWhile_cons]

theorem splitHash_ne_nil (l : List Char) : splitHash l ≠ [] := by
  cases l with
  | nil => simp [splitHash]
  | cons c rest =>
    by_cases h : c = '#'
    · simp [splitHash, h]
    · simp only [splitHash, if_neg h]
      cases hsp : splitHash rest <;> simp

theorem splitHash_headD (l : List Char) :
    (splitHash l).headD [] = l.takeWhile (fun x => x ≠ '#') := by
  induction l with
  | nil => simp [splitHash]
  | cons c rest ih =>
    by_cases h : c = '#'
    · subst h
      simp [splitHash, List.takeWhile_cons]
    · simp only [splitHash, if_neg h]
      cases hsp : splitHash rest with
      | nil => exact absurd hsp (splitHash_ne_nil rest)
      | cons p ps =>
        rw [hsp] at ih
        simp only [List.headD_cons] at ih
        simp [List.takeWhile_cons, h, ih]

theorem splitHash_length_eq (l : List Char) :
    (splitHash l).length = l.count '#' + 1 := by
  induction l with
  | nil => simp [splitHash]
  | cons c rest ih =>
    by_cases h : c = '#'
    · subst h
      simp [splitHash, List.count_cons, ih]
    · simp only [splitHash, if_neg h]
      cases hsp : splitHash rest with
      | nil => exact absurd hsp (splitHash_ne_nil rest)
      | cons p ps =>
        rw [hsp] at ih
        simp only [List.length_cons] at ih ⊢
        rw [List.count_cons]
        simp [h]
        omega

theorem splitHash_length (l : List Char) :
    1 < (splitHash l).length ↔ l.contains '#' = true := by
  rw [splitHash_length_eq]
  have h1 : (1 < l.count '#' + 1) ↔ 0 < l.count '#' := by omega
  rw [h1, List.count_pos_iff]
  exact Iff.symm List.elem_iff

theorem lastTwo_eq_iff_suffix (pre : List Char) :
    lastTwo pre = [' ', ' '] ↔ List.isSuffixOf [' ', ' '] pre = true := by
  rw [List.isSuffixOf_iff_suffix, List.suffix_iff_eq_drop]
  constructor
  · intro h
    simpa [lastTwo] using h.symm
  · intro h
    simpa [lastTwo] using h.symm

theorem lastTwo_short_ne (pre : List Char) (h : pre.length < 2) :
    lastTwo pre ≠ [' ', ' '] := by
  intro heq
  have h0 : pre.length - 2 = 0 := by omega
  rw [lastTwo, h0, List.drop_zero] at heq
  subst heq
  simp at h

/- Isolating the S006 findings of a line scan. -/

theorem filter_seg_ne (c : Prop) [Decidable c] (n : Nat) (k : String)
    (hk : (k == "S006") = false) :
    (if c then [((n, k) : Finding)] else []).filter (fun f => f.2 == "S006") = [] := by
  split <;> simp [List.filter_cons, hk]

theorem filter_seg_eq (c : Prop) [Decidable c] (n : Nat) :
    (if c then [((n, "S006") : Finding)] else []).filter (fun f => f.2 == "S006")
      = if c then [(n, "S006")] else [] := by
  split <;> simp [List.filter_cons]

theorem lineFindingList_filter_S006 (line : List Char) (n : Nat) (blanks : Nat) :
    (lineFindingList line n blanks).filter (fun f => f.2 == "S006")
      = if rstripNl line ≠ [] ∧ 2 < blanks then [(n, "S006")] else [] := by
  simp only [lineFindingList, frontChecks, backChecks, List.flatMap_cons,
    List.flatMap_nil, List.append_nil, List.filter_append]
  rw [filter_seg_ne _ n "S001" (by decide), filter_seg_ne _ n "S002" (by decide),
    filter_seg_ne _ n "S003" (by decide), filter_seg_ne _ n "S004" (by decide),
    filter_seg_ne _ n "S005" (by decide), filter_seg_eq _ n,
    filter_seg_ne _ n "S007" (by decide), filter_seg_ne _ n "S008" (by decide),
    filter_seg_ne _ n "S009" (by decide)]
  simp

theorem finalBlanks_append_nonblank (L : List Char) (hL : ¬ rstripNl L = [])
    (bs : List (List Char)) :
    ∀ k, finalBlanks (bs ++ [L]) k = 0 := by
  induction bs with
  | nil => intro k; simp [finalBlanks, nextBlanks, hL]
  | cons b rest ih => intro k; simpa [finalBlanks] using ih (nextBlanks b k)

theorem scanFindingList_filter_S006 (L : List Char) (hL : ¬ rstripNl L = [])
    (bs : List (List Char)) :
    ∀ (m k : Nat), (∀ b ∈ bs, rstripNl b = []) →
      (scanFindingList (bs ++ [L]) m k).filter (fun f => f.2 == "S006")
        = if 2 < k + bs.length then [(m + bs.length, "S006")] else [] := by
  induction bs with
  | nil =>
    intro m k _
    simp [scanFindingList, List.filter_append, lineFindingList_filter_S006, hL]
  | cons b rest ih =>
    intro m k hb
    have hbb : rstripNl b = [] := hb b (List.mem_cons_self b rest)
    have hrest : ∀ x ∈ rest, rstripNl x = [] := fun x hx => hb x (List.mem_cons_of_mem b hx)
    have hnext : nextBlanks b k = k + 1 := by simp [nextBlanks, hbb]
    simp only [List.cons_append, scanFindingList, List.filter_append,
      lineFindingList_filter_S006, hbb, hnext, List.append_eq]
    rw [ih (m + 1) (k + 1) hrest]
    have hm : (m + 1) + rest.length = m + (b :: rest).length := by
      simp only [List.length_cons]; omega
    have hk2 : (k + 1) + rest.length = k + (b :: rest).length := by
      simp only [List.length_cons]; omega
    rw [hm, hk2]
    simp

/- Monotonicity: every check only appends to the findings store. -/

theorem ite_output_extends (s : AnalyzerState) (n : Nat) (k : String) (c : Prop)
    [Decidable c] (p : String) :
    ∃ t, findingsOf (if c then output s n k else s) p = findingsOf s p ++ t := by
  rcases eq_or_ne p s.currentPath with he | hne
  · subst he
    exact ⟨_, (ite_output_spec s n k c).2.2.1⟩
  · exact ⟨[], by simpa using (ite_output_spec s n k c).2.2.2 p hne⟩

theorem blank_lines_check_extends (s : AnalyzerState) (line : List Char) (n : Nat)
    (p : String) :
    ∃ t, findingsOf (blank_lines_check s line n) p = findingsOf s p ++ t := by
  rcases eq_or_ne p s.currentPath with he | hne
  · subst he
    exact ⟨_, (blank_lines_check_spec s line n).2.2.1⟩
  · exact ⟨[], by simpa using (blank_lines_check_spec s line n).2.2.2 p hne⟩

theorem checkLine_extends (s : AnalyzerState) (line : List Char) (n : Nat) (p : String) :
    ∃ t, findingsOf (checkLine s line n) p = findingsOf s p ++ t := by
  rcases eq_or_ne p s.currentPath with he | hne
  · subst he
    exact ⟨_, (checkLine_spec s line n).2.2.1⟩
  · exact ⟨[], by simpa using (checkLine_spec s line n).2.2.2 p hne⟩

theorem arguments_check_node_extends (s : AnalyzerState) (node : PyStmt) (p : String) :
    ∃ t, findingsOf (arguments_check_node s node) p = findingsOf s p ++ t := by
  rcases eq_or_ne p s.currentPath with he | hne
  · subst he
    exact ⟨_, (arguments_check_node_spec s node).2.2.1⟩
  · exact ⟨[], by simpa using (arguments_check_node_spec s node).2.2.2 p hne⟩

theorem check_file_extends (s : AnalyzerState) (lines : List (List Char))
    (tree : List PyStmt) (p : String) :
    ∃ t, findingsOf (check_file s lines tree) p = findingsOf s p ++ t := by
  rcases eq_or_ne p s.currentPath with he | hne
  · subst he
    exact ⟨_, by rw [(check_file_spec s lines tree).2.2.1, List.append_assoc]⟩
  · exact ⟨[], by simpa using (check_file_spec s lines tree).2.2.2 p hne⟩

theorem check_path_extends (files : List PyFile) :
    ∀ (s : AnalyzerState) (p : String),
      ∃ t, findingsOf (check_path s files) p = findingsOf s p ++ t := by
  induction files with
  | nil => intro s p; exact ⟨[], by simp [check_path]⟩
  | cons f rest ih =>
    intro s p
    have hstep : check_path s (f :: rest)
        = check_path (check_file { s with currentPath := f.path } f.lines f.tree) rest := rfl
    obtain ⟨t1, ht1⟩ :=
      check_file_extends { s with currentPath := f.path } f.lines f.tree p
    obtain ⟨t2, ht2⟩ := ih (check_file { s with currentPath := f.path } f.lines f.tree) p
    refine ⟨t1 ++ t2, ?_⟩
    rw [hstep, ht2, ht1]
    have hcp : findingsOf { s with currentPath := f.path } p = findingsOf s p := rfl
    rw [hcp, List.append_assoc]

/- The claims. -/

/-- C6: the S001 check flags exactly when the line with its trailing
newline stripped has more than 79 characters (raw character count): the
findings list of the current file gains `(n, "S001")` iff the stripped
length exceeds 79; in particular a line of exactly 80 characters before
the newline is flagged and one of 79 characters is not. -/
theorem C6_line_length (s : AnalyzerState) (line : List Char) (n : Nat) :
    (findingsOf (len_check s line n) s.currentPath
      = findingsOf s s.currentPath
        ++ (if 79 < (rstripNl line).length then [(n, "S001")] else []))
    ∧ findingsOf (len_check (AnalyzerState.mk 0 "f.py" [])
        (List.replicate 80 'a' ++ ['\n']) 1) "f.py" = [(1, "S001")]
    ∧ findingsOf (len_check (AnalyzerState.mk 0 "f.py" [])
        (List.replicate 79 'a' ++ ['\n']) 1) "f.py" = [] := by
  refine ⟨?_, by decide, by decide⟩
  have h := (ite_output_spec s n "S001" (len_flag line = true)).2.2.1
  simpa [len_check, len_flag, decide_eq_true_eq] using h

/-- C7: the S002 check counts leading space characters (not tabs) up to
the first non-space (`identCounter` equals the length of the maximal
space prefix) and flags exactly when that count is positive and not a
multiple of 4; a line with no leading spaces is never flagged. -/
theorem C7_indentation (s : AnalyzerState) (line : List Char) (n : Nat) :
    (identCounter line = (line.takeWhile (fun c => c = ' ')).length)
    ∧ (findingsOf (ident_check s line n) s.currentPath
        = findingsOf s s.currentPath
          ++ (if 0 < identCounter line ∧ identCounter line % 4 ≠ 0
              then [(n, "S002")] else []))
    ∧ ((line.takeWhile (fun c => c = ' ')).length = 0 →
        findingsOf (ident_check s line n) s.currentPath = findingsOf s s.currentPath) := by
  refine ⟨identCounter_eq_takeWhile line, ?_, ?_⟩
  · have h := (ite_output_spec s n "S002" (ident_flag line = true)).2.2.1
    simpa [ident_check, ident_flag, decide_eq_true_eq] using h
  · intro h0
    have hc : identCounter line = 0 := by rw [identCounter_eq_takeWhile line, h0]
    simp [ident_check, ident_flag, hc]

/-- C7 witness: a line with no leading spaces leaves the findings
unchanged. -/
theorem C7_witness :
    findingsOf (ident_check (AnalyzerState.mk 0 "f.py" []) ['x', '\n'] 1)
        (AnalyzerState.mk 0 "f.py" []).currentPath
      = findingsOf (AnalyzerState.mk 0 "f.py" [])
          (AnalyzerState.mk 0 "f.py" []).currentPath :=
  (C7_indentation (AnalyzerState.mk 0 "f.py" []) ['x', '\n'] 1).2.2 (by decide)

/-- C8: the S004 check skips lines whose first character is `#`;
otherwise, on a line containing `#`, it flags exactly when the two
characters immediately preceding the first `#` are not both spaces (the
`lastTwo` slice equals two spaces iff `"  "` is a suffix of the part
before the first `#`); a line with fewer than 2 characters before its
first `#` never satisfies the two-space requirement, hence is flagged. -/
theorem C8_comment_spacing (s : AnalyzerState) (c : Char) (rest : List Char) (n : Nat) :
    (findingsOf (two_spaces_check s (c :: rest) n) s.currentPath
      = findingsOf s s.currentPath
        ++ (if c = '#' then []
            else if (c :: rest).contains '#' = true
                    ∧ lastTwo ((c :: rest).takeWhile (fun x => x ≠ '#')) ≠ [' ', ' ']
                 then [(n, "S004")] else []))
    ∧ (lastTwo ((c :: rest).takeWhile (fun x => x ≠ '#')) = [' ', ' ']
        ↔ List.isSuffixOf [' ', ' '] ((c :: rest).takeWhile (fun x => x ≠ '#')) = true)
    ∧ (((c :: rest).takeWhile (fun x => x ≠ '#')).length < 2 →
        lastTwo ((c :: rest).takeWhile (fun x => x ≠ '#')) ≠ [' ', ' ']) := by
  refine ⟨?_, lastTwo_eq_iff_suffix _, lastTwo_short_ne _⟩
  by_cases hc : c = '#'
  · simp [two_spaces_check, two_spaces_flag, hc]
  · have hiff : (two_spaces_flag (c :: rest) = true)
        ↔ ((c :: rest).contains '#' = true
            ∧ lastTwo ((c :: rest).takeWhile (fun x => x ≠ '#')) ≠ [' ', ' ']) := by
      rw [show two_spaces_flag (c :: rest)
          = (if c = '#' then false
             else decide (1 < (splitHash (c :: rest)).length)
                  && (lastTwo ((splitHash (c :: rest)).headD []) != [' ', ' '])) from rfl]
      rw [if_neg hc, Bool.and_eq_true, decide_eq_true_eq, bne_iff_ne,
        splitHash_length, splitHash_headD]
    have h := (ite_output_spec s n "S004" (two_spaces_flag (c :: rest) = true)).2.2.1
    rw [show two_spaces_check s (c :: rest) n
        = (if two_spaces_flag (c :: rest) = true then output s n "S004" else s) from rfl]
    rw [h, if_neg hc]
    congr 1
    by_cases hAB : (c :: rest).contains '#' = true
        ∧ lastTwo ((c :: rest).takeWhile (fun x => x ≠ '#')) ≠ [' ', ' ']
    · rw [if_pos (hiff.mpr hAB), if_pos hAB]
    · rw [if_neg (fun hf => hAB (hiff.mp hf)), if_neg hAB]

/-- C8 witness: `"x# c"` has a single character before its first `#`, so
the two-space requirement fails there. -/
theorem C8_witness :
    lastTwo (('x' :: "# c".data).takeWhile (fun x => x ≠ '#')) ≠ [' ', ' '] :=
  (C8_comment_spacing (AnalyzerState.mk 0 "f.py" []) 'x' "# c".data 1).2.2 (by decide)

/-- C5: scanning a run of blank lines followed by a non-blank line, from a
state whose blank counter is 0, adds exactly one S006 finding when the run
has length at least 3 and none otherwise; the finding carries the
non-blank line's number (blank lines never receive S006), and the counter
is reset to 0 by the non-blank line. -/
theorem C5_blank_run (s : AnalyzerState) (bs : List (List Char)) (L : List Char)
    (m : Nat) (h0 : s.precedingBlankLines = 0)
    (hb : ∀ b ∈ bs, rstripNl b = []) (hL : ¬ rstripNl L = []) :
    ((findingsOf (scanLines s (bs ++ [L]) m) s.currentPath).filter
        (fun f => f.2 == "S006")
      = (findingsOf s s.currentPath).filter (fun f => f.2 == "S006")
        ++ (if 2 < bs.length then [(m + bs.length, "S006")] else []))
    ∧ (scanLines s (bs ++ [L]) m).precedingBlankLines = 0 := by
  obtain ⟨h1, h2, h3, h4⟩ := scanLines_spec (bs ++ [L]) s m
  constructor
  · rw [h3, List.filter_append, h0, scanFindingList_filter_S006 L hL bs m 0 hb]
    simp
  · rw [h2, h0, finalBlanks_append_nonblank L hL bs 0]

/-- C5 witness: three blank lines then `"x"` yield one S006 at line 4. -/
theorem C5_witness :
    ((findingsOf (scanLines (AnalyzerState.mk 0 "f.py" [])
          ([['\n'], ['\n'], ['\n']] ++ [['x', '\n']]) 1)
        (AnalyzerState.mk 0 "f.py" []).currentPath).filter (fun f => f.2 == "S006")
      = (findingsOf (AnalyzerState.mk 0 "f.py" [])
          (AnalyzerState.mk 0 "f.py" []).currentPath).filter (fun f => f.2 == "S006")
        ++ (if 2 < ([['\n'], ['\n'], ['\n']] : List (List Char)).length
            then [(1 + ([['\n'], ['\n'], ['\n']] : List (List Char)).length, "S006")]
            else []))
    ∧ (scanLines (AnalyzerState.mk 0 "f.py" [])
        ([['\n'], ['\n'], ['\n']] ++ [['x', '\n']]) 1).precedingBlankLines = 0 :=
  C5_blank_run (AnalyzerState.mk 0 "f.py" []) [['\n'], ['\n'], ['\n']] ['x', '\n'] 1
    rfl (by decide) (by decide)

/-- C1 counterexample: the blank-line counter is NOT reset at the start of
a new file.  Analysing `a.py` (three blank lines) and then `b.py` (a
single non-blank line) flags S006 on line 1 of `b.py`, while analysing
`b.py` alone flags nothing: whether a line of one file receives S006 does
depend on the trailing blank lines of the previously processed file. -/
theorem C1_counterexample :
    findingsOf (check_path initState
        [PyFile.mk "a.py" [['\n'], ['\n'], ['\n']] [],
         PyFile.mk "b.py" [['x', '\n']] []]) "b.py" = [(1, "S006")]
    ∧ findingsOf (check_path initState [PyFile.mk "b.py" [['x', '\n']] []]) "b.py"
      = [] :=
  ⟨by decide, by decide⟩

/-- C1 (amended): `check_file` does not reset the blank-line counter; it
starts with whatever value the previous processing left.  Whenever the
carried counter exceeds 2 and the file's first line is non-blank, S006 is
flagged at line 1 of the new file. -/
theorem C1_blank_counter_carries (s : AnalyzerState) (L : List Char)
    (rest : List (List Char)) (tree : List PyStmt)
    (h : 2 < s.precedingBlankLines) (hL : ¬ rstripNl L = []) :
    (1, "S006") ∈ findingsOf (check_file s (L :: rest) tree) s.currentPath := by
  obtain ⟨-, -, h3, -⟩ := check_file_spec s (L :: rest) tree
  rw [h3]
  have hmem : ((1 : Nat), "S006") ∈ lineFindingList L 1 s.precedingBlankLines := by
    simp [lineFindingList, hL, h]
  have hscan : ((1 : Nat), "S006") ∈ scanFindingList (L :: rest) 1 s.precedingBlankLines := by
    rw [scanFindingList]
    exact List.mem_append_left _ hmem
  exact List.mem_append_left _ (List.mem_append_right _ hscan)

/-- C1 witness: a carried counter of 3 flags line 1 of the next file. -/
theorem C1_witness :
    (1, "S006") ∈ findingsOf
        (check_file (AnalyzerState.mk 3 "b.py" []) [['x', '\n']] [])
        (AnalyzerState.mk 3 "b.py" []).currentPath :=
  C1_blank_counter_carries (AnalyzerState.mk 3 "b.py" []) ['x', '\n'] [] []
    (by decide) (by decide)

/-- C2: contrary to the program's own docstring ("The program does not
force the names of variables outside of functions"), `ast.walk` reaches
every `Assign` node, so a module-level assignment `X = 1` and a class-body
assignment `Attr = 2` are both flagged S011. -/
theorem C2_scope_eval :
    findingsOf (arguments_check (AnalyzerState.mk 0 "m.py" [])
        [PyStmt.assign 1 [PyTarget.nameT "X"]]) "m.py" = [(1, "S011")]
    ∧ findingsOf (arguments_check (AnalyzerState.mk 0 "m.py" [])
        [PyStmt.classDef 1 [PyStmt.assign 2 [PyTarget.nameT "Attr"]]]) "m.py"
      = [(2, "S011")] :=
  ⟨by decide, by decide⟩

/-- C3 counterexample: in the tuple assignment `A, b = ...` the only AST
target is a `Tuple` node, which has no `id`, so the uppercase name `A`
inside it is never flagged — no S011 finding is produced, contrary to the
claim that each simple-identifier target name of a tuple assignment is
checked. -/
theorem C3_counterexample :
    findingsOf (arguments_check (AnalyzerState.mk 0 "m.py" [])
        [PyStmt.assign 1 [PyTarget.tupleT [PyTarget.nameT "A", PyTarget.nameT "b"]]])
      "m.py" = [] := by decide

/-- C3 (amended): for an assignment, exactly the direct targets that are
`Name` nodes are checked independently (one S011 per uppercase-containing
name, at the assignment's line, as in chained assignments `a = B = 1`);
every non-`Name` target — attribute access, subscript, and tuple/list
unpacking targets together with the names inside them — is silently
skipped. -/
theorem C3_assign_targets (s : AnalyzerState) (lineno : Nat)
    (targets : List PyTarget) :
    findingsOf (arguments_check s [PyStmt.assign lineno targets]) s.currentPath
      = findingsOf s s.currentPath
        ++ targets.filterMap (fun t =>
            match t.idAttr with
            | some id => if reMatchAnyUpper id.data then some (lineno, "S011") else none
            | none => none) := by
  have hwalk : walk [PyStmt.assign lineno targets] = [PyStmt.assign lineno targets] := rfl
  have h := (arguments_check_spec s [PyStmt.assign lineno targets]).2.2.1
  rw [h, treeFindingList, hwalk]
  simp [nodeFindingList]

/-- C4: for a function definition only the first positional default is
inspected: the tree pass appends the S010 findings for the argument
names and then at most one S012 finding, present exactly when the first
default expression's kind is not `Constant`, at the function's line;
`def f(x=[]):` flags S012 and `def f(x=1):` does not. -/
theorem C4_first_default (s : AnalyzerState) (lineno : Nat) (args : List String)
    (defaults : List PyExpr) :
    (findingsOf (arguments_check s [PyStmt.functionDef lineno args defaults []])
        s.currentPath
      = findingsOf s s.currentPath
        ++ ((args.filterMap fun a =>
              if reMatchAnyUpper a.data then some (lineno, "S010") else none)
            ++ (match defaults with
                | [] => []
                | d :: _ => if d.typeName ≠ "Constant" then [(lineno, "S012")] else [])))
    ∧ findingsOf (arguments_check (AnalyzerState.mk 0 "f.py" [])
        [PyStmt.functionDef 1 ["x"] [PyExpr.listLit] []]) "f.py" = [(1, "S012")]
    ∧ findingsOf (arguments_check (AnalyzerState.mk 0 "f.py" [])
        [PyStmt.functionDef 1 ["x"] [PyExpr.constant] []]) "f.py" = [] := by
  refine ⟨?_, by decide, by decide⟩
  have hwalk : walk [PyStmt.functionDef lineno args defaults []]
      = [PyStmt.functionDef lineno args defaults []] := rfl
  have h := (arguments_check_spec s [PyStmt.functionDef lineno args defaults []]).2.2.1
  rw [h, treeFindingList, hwalk]
  simp [nodeFindingList]

/-- C9: the printed output is the findings grouped by file in sorted
(lexicographic) order of file path — `insertionSort` over the stored keys
is sorted and a permutation of them — with each file's findings emitted in
stored discovery order, never re-sorted; each output line has the format
`<file_path>: Line <line_number>: <rule_code> <rule_description>`; a
file's stored findings are the line findings in line order, each line
contributing its findings in the fixed check order S001..S009, followed by
the tree findings in walk order. -/
theorem C9_output_order :
    (∀ s : AnalyzerState, print_result s
        = (List.insertionSort (fun a b => a ≤ b) (s.result.map Prod.fst)).flatMap
            (fun fileName => (findingsOf s fileName).map (formatFinding fileName)))
    ∧ (∀ keys : List String,
        List.Sorted (fun a b => a ≤ b) (List.insertionSort (fun a b => a ≤ b) keys)
        ∧ List.Perm (List.insertionSort (fun a b => a ≤ b) keys) keys)
    ∧ (∀ (fileName : String) (f : Finding),
        formatFinding fileName f
          = fileName ++ ": Line " ++ toString f.1 ++ ": " ++ f.2 ++ " " ++ issues f.2)
    ∧ (∀ (s : AnalyzerState) (lines : List (List Char)) (tree : List PyStmt),
        findingsOf (check_file s lines tree) s.currentPath
          = findingsOf s s.currentPath
            ++ scanFindingList lines 1 s.precedingBlankLines
            ++ treeFindingList tree)
    ∧ (∀ (line : List Char) (n blanks : Nat),
        lineFindingList line n blanks
          = (if len_flag line then [(n, "S001")] else [])
            ++ ((if ident_flag line then [(n, "S002")] else [])
            ++ ((if semicolon_flag line then [(n, "S003")] else [])
            ++ ((if two_spaces_flag line then [(n, "S004")] else [])
            ++ ((if todo_flag line then [(n, "S005")] else [])
            ++ ((if rstripNl line ≠ [] ∧ 2 < blanks then [(n, "S006")] else [])
            ++ ((if def_spaces_flag line then [(n, "S007")] else [])
            ++ ((if class_naming_flag line then [(n, "S008")] else [])
            ++ (if function_naming_flag line then [(n, "S009")] else []))))))))) := by
  refine ⟨fun s => rfl, ?_, fun fileName f => rfl, ?_, ?_⟩
  · intro keys
    exact ⟨List.sorted_insertionSort _ keys, List.perm_insertionSort _ keys⟩
  · intro s lines tree
    exact (check_file_spec s lines tree).2.2.1
  · intro line n blanks
    simp [lineFindingList, frontChecks, backChecks, List.append_assoc]

/-- C10: every check records results only by appending `(line, code)`
pairs through `output`: `output` appends exactly one pair to the current
file's findings and leaves every other file unchanged, and each check
function, the per-node tree check, `check_file` and `check_path` extend
every file's findings list on the right — earlier findings are never
removed, mutated or reordered, so each per-file findings sequence grows
monotonically. -/
theorem C10_append_only :
    (∀ (s : AnalyzerState) (n : Nat) (c : String),
        findingsOf (output s n c) s.currentPath = findingsOf s s.currentPath ++ [(n, c)])
    ∧ (∀ (s : AnalyzerState) (n : Nat) (c : String) (p : String),
        p ≠ s.currentPath → findingsOf (output s n c) p = findingsOf s p)
    ∧ (∀ (s : AnalyzerState) (line : List Char) (n : Nat) (p : String),
        (∃ t, findingsOf (len_check s line n) p = findingsOf s p ++ t)
        ∧ (∃ t, findingsOf (ident_check s line n) p = findingsOf s p ++ t)
        ∧ (∃ t, findingsOf (semicolon_check s line n) p = findingsOf s p ++ t)
        ∧ (∃ t, findingsOf (two_spaces_check s line n) p = findingsOf s p ++ t)
        ∧ (∃ t, findingsOf (todo_check s line n) p = findingsOf s p ++ t)
        ∧ (∃ t, findingsOf (blank_lines_check s line n) p = findingsOf s p ++ t)
        ∧ (∃ t, findingsOf (def_spaces_check s line n) p = findingsOf s p ++ t)
        ∧ (∃ t, findingsOf (class_naming_check s line n) p = findingsOf s p ++ t)
        ∧ (∃ t, findingsOf (function_naming_check s line n) p = findingsOf s p ++ t))
    ∧ (∀ (s : AnalyzerState) (node : PyStmt) (p : String),
        ∃ t, findingsOf (arguments_check_node s node) p = findingsOf s p ++ t)
    ∧ (∀ (s : AnalyzerState) (lines : List (List Char)) (tree : List PyStmt) (p : String),
        ∃ t, findingsOf (check_file s lines tree) p = findingsOf s p ++ t)
    ∧ (∀ (s : AnalyzerState) (files : List PyFile) (p : String),
        ∃ t, findingsOf (check_path s files) p = findingsOf s p ++ t) := by
  refine ⟨findingsOf_output_self,
    fun s n c p hp => findingsOf_output_ne s n c p hp,
    ?_,
    fun s node p => arguments_check_node_extends s node p,
    fun s lines tree p => check_file_extends s lines tree p,
    fun s files p => check_path_extends files s p⟩
  intro s line n p
  exact ⟨ite_output_extends s n "S001" (len_flag line = true) p,
    ite_output_extends s n "S002" (ident_flag line = true) p,
    ite_output_extends s n "S003" (semicolon_flag line = true) p,
    ite_output_extends s n "S004" (two_spaces_flag line = true) p,
    ite_output_extends s n "S005" (todo_flag line = true) p,
    blank_lines_check_extends s line n p,
    ite_output_extends s n "S007" (def_spaces_flag line = true) p,
    ite_output_extends s n "S008" (class_naming_flag line = true) p,
    ite_output_extends s n "S009" (function_naming_flag line = true) p⟩

/-- C10 witness: recording one finding appends it to the current file's
list and leaves a different file's list unchanged. -/
theorem C10_witness :
    findingsOf (output (AnalyzerState.mk 0 "f.py" []) 1 "S001")
        (AnalyzerState.mk 0 "f.py" []).currentPath
      = findingsOf (AnalyzerState.mk 0 "f.py" [])
          (AnalyzerState.mk 0 "f.py" []).currentPath ++ [(1, "S001")]
    ∧ findingsOf (output (AnalyzerState.mk 0 "f.py" []) 1 "S001") "g.py"
      = findingsOf (AnalyzerState.mk 0 "f.py" []) "g.py" :=
  ⟨C10_append_only.1 (AnalyzerState.mk 0 "f.py" []) 1 "S001",
   C10_append_only.2.1 (AnalyzerState.mk 0 "f.py" []) 1 "S001" "g.py" (by decide)⟩

end CodeAnalyzer
